import Mathlib

/-!
# Verification of the gpilot backend core

Shallow embedding of the gpilot backend's core services, translated from the
Go sources:

* the VLM provider-chain router (`AIService.GenerateStepDescription`,
  `ruleBasedDescription`, the per-call enablement flags),
* the document builder (`DocService.BuildDocument`, its `parseStep` and
  `flushGroup` closures, `GenerateMarkdown`),
* the batch progress coordinator (`AIService.GenerateDocForSession`).

Network interactions (provider HTTP calls, the Ollama liveness probe) and the
relational store are external collaborators; they are modelled as explicit
oracle/state parameters, while every piece of control flow and string
manipulation that the services themselves perform is translated directly.
-/

namespace GPilot

/-! ## Provider chain router (service/ai.go)

`config.LLMConfig` carries, per provider, the API key together with base-URL
and model fields.  Only the API keys steer control flow (enablement checks);
base URLs and models only shape the outgoing HTTP payloads, which are behind
the network oracle, so the embedded config keeps just the keys.  The config
passed here is the *effective* one (`effectiveCfg()`: environment defaults
overridden per call by active DB `LLMProvider` rows). -/

structure LLMConfig where
  geminiAPIKey : String
  zhipuAPIKey : String
  openRouterAPIKey : String
  openAIAPIKey : String
deriving Repr, DecidableEq

/-- Network oracle for one `GenerateStepDescription` invocation.
`ollamaProbeOK` is the outcome of `isOllamaAvailableWithCfg` (a GET on
`/api/tags` with a 2s client timeout; any transport error or non-200 status
yields `false`).  `callResult name` is the outcome of that provider's call
function (`callOllama`/`callZhipu`/`callGemini`/`callOpenRouter`/`callOpenAI`)
on the current request: `none` models any failure (transport error, non-200
status, undecodable or empty-candidate payload), `some s` models a successful
call whose parsed, `strings.TrimSpace`d text is `s`.  Note the adapters do not
reject a 200 response whose trimmed text is the empty string, so `some ""` is
a possible outcome. -/
structure Net where
  ollamaProbeOK : Bool
  callResult : String → Option String

/-- Struct `VLMRequest` (service/ai.go). -/
structure VLMRequest where
  stepAction : String
  targetElement : String
  pageURL : String
  pageTitle : String
  maskedText : String
  screenshotB64 : String
deriving Repr, DecidableEq

/-- Struct `VLMResponse` (service/ai.go). -/
structure VLMResponse where
  description : String
  provider : String
  usedFree : Bool
deriving Repr, DecidableEq

/-- The `actionMap` lookup in `ruleBasedDescription`; a Go map read returns
the zero value `""` for a missing key. -/
def actionMapLookup : String → String
  | "click" => "点击"
  | "input" => "输入"
  | "select" => "选择"
  | "drag" => "拖拽"
  | "navigation" => "导航至"
  | "scroll" => "滚动"
  | "hover" => "悬停在"
  | _ => ""

/-- Function `ruleBasedDescription` (service/ai.go): deterministic fallback text. -/
def ruleBasedDescription (req : VLMRequest) : String :=
  let action := actionMapLookup req.stepAction
  let action := if action = "" then req.stepAction else action
  if req.maskedText ≠ "" then
    "在[" ++ req.pageTitle ++ "]页面，" ++ action ++ "[" ++ req.maskedText ++ "]"
  else
    "在[" ++ req.pageTitle ++ "]页面，" ++ action ++ " " ++ req.targetElement

/-- One entry of the routing chain literal in `GenerateStepDescription`:
name, free-tier flag, and the freshly evaluated enablement flag. -/
structure ChainEntry where
  name : String
  isFree : Bool
  enabled : Bool
deriving Repr, DecidableEq

/-- The chain literal of `GenerateStepDescription`, in source order:
ollama (enabled iff the liveness probe succeeded), zhipu / gemini /
openrouter (enabled iff the effective API key is non-empty), then the paid
openai (enabled iff its key is non-empty). -/
def chain (cfg : LLMConfig) (net : Net) : List ChainEntry :=
  [ ⟨"ollama", true, net.ollamaProbeOK⟩,
    ⟨"zhipu", true, cfg.zhipuAPIKey ≠ ""⟩,
    ⟨"gemini", true, cfg.geminiAPIKey ≠ ""⟩,
    ⟨"openrouter", true, cfg.openRouterAPIKey ≠ ""⟩,
    ⟨"openai", false, cfg.openAIAPIKey ≠ ""⟩ ]

/-- The `for _, provider := range chain` loop: skip disabled entries, return
on the first successful call, silently continue past failures. -/
def tryChain (net : Net) : List ChainEntry → Option VLMResponse
  | [] => none
  | e :: rest =>
    if e.enabled then
      match net.callResult e.name with
      | some desc => some ⟨desc, e.name, e.isFree⟩
      | none => tryChain net rest
    else tryChain net rest

/-- Function `GenerateStepDescription` (service/ai.go).  The Go signature returns
`(*VLMResponse, error)`; both return paths carry a nil error, embedded here
as `Except.ok`. -/
def generateStepDescription (cfg : LLMConfig) (net : Net) (req : VLMRequest) :
    Except String VLMResponse :=
  match tryChain net (chain cfg net) with
  | some resp => .ok resp
  | none => .ok ⟨ruleBasedDescription req, "rule-based", true⟩

example :
    generateStepDescription ⟨"", "", "", ""⟩ ⟨false, fun _ => none⟩
      ⟨"click", "", "", "登录页", "登录", ""⟩ =
      .ok ⟨"在[登录页]页面，点击[登录]", "rule-based", true⟩ := rfl

example :
    generateStepDescription ⟨"", "k", "", ""⟩ ⟨false, fun _ => some "描述文本"⟩
      ⟨"click", "", "", "登录页", "登录", ""⟩ =
      .ok ⟨"描述文本", "zhipu", true⟩ := rfl

/-! ## String primitives used by the document builder

Go's `strings` functions operate on byte offsets; since both the scanned
strings and the landmark patterns are valid UTF-8 and UTF-8 is
self-synchronizing, a byte-level match of a pattern always falls on rune
boundaries, so the character-level translation below coincides with the Go
semantics. -/

/-- Go `strings.Index`: position (in characters) of the first occurrence of
`pat` in `l`, or `none` (Go's `-1`). -/
def firstIdx? (pat : List Char) : List Char → Option Nat
  | [] => if pat.isPrefixOf [] then some 0 else none
  | c :: rest =>
    if pat.isPrefixOf (c :: rest) then some 0
    else (firstIdx? pat rest).map (· + 1)

/-- Go `strings.Contains`. -/
def containsSub (t pat : String) : Bool :=
  (firstIdx? pat.data t.data).isSome

/-- The suffix after the first occurrence of `pat`
(Go's `t[idx+len(pat):]` after a successful `strings.Index`). -/
def afterFirst? (t pat : List Char) : Option (List Char) :=
  (firstIdx? pat t).map fun i => t.drop (i + pat.length)

/-- Go `strings.TrimSpace` (whitespace on both ends). -/
def trimSpace (l : List Char) : List Char :=
  ((l.dropWhile Char.isWhitespace).reverse.dropWhile Char.isWhitespace).reverse

/-- Go `strings.TrimRight(s, "。")`. -/
def trimRightStop (l : List Char) : List Char :=
  (l.reverse.dropWhile (· = '。')).reverse

example : firstIdx? "页面的 ".data "在 X 页面的 表单区，点".data = some 4 := by decide
example : trimSpace "  表单区 ".data = "表单区".data := by decide

/-! ## Document builder (service/doc.go) -/

/-- The `stepContext` struct of the `parseStep` closure in `BuildDocument`. -/
structure StepContext where
  location : String
  compName : String
  purpose : String
  verb : String
deriving Repr, DecidableEq

/-- The `parseStep` closure in `BuildDocument`: landmark-phrase parsing of a
step's target-element text `t`, with generic defaults and a verb fallback on
the step's action kind. -/
def parseStep (t action : String) : StepContext :=
  let location :=
    match afterFirst? t.data "页面的 ".data with
    | some sub =>
      match firstIdx? "，".data sub with
      | some endIdx => String.mk (trimSpace (sub.take endIdx))
      | none => "页面区域"
    | none => "页面区域"
  let compName :=
    match afterFirst? t.data "功能为 ".data with
    | some sub =>
      match firstIdx? " 的".data sub with
      | some endIdx => String.mk (trimSpace (sub.take endIdx))
      | none => "组件"
    | none => "组件"
  let purpose :=
    match afterFirst? t.data "实现 ".data with
    | some sub => String.mk (trimRightStop (trimSpace sub))
    | none => "业务交互"
  let verb :=
    if containsSub t "录入了" then "录入"
    else if containsSub t "切换到" then "切换到"
    else if containsSub t "选择了" then "选择"
    else if containsSub t "点击了" then "点击"
    else match action with
      | "click" => "点击"
      | "input" => "录入"
      | "select" => "选择"
      | _ => "操作"
  ⟨location, compName, purpose, verb⟩

example :
    parseStep "用户点击了 订单 页面的 工具栏，功能为 导出 的按钮，实现 数据导出。" "click" =
      ⟨"工具栏", "导出", "数据导出", "点击"⟩ := by decide

example : parseStep "普通按钮文本" "input" = ⟨"页面区域", "组件", "业务交互", "录入"⟩ := by
  decide

/-! ## Store data model (db/models.go)

Only the fields the embedded services read are carried. -/

/-- Struct `db.RecordingStep`. -/
structure RecordingStep where
  id : String
  sessionId : String
  stepIndex : Int
  action : String
  targetSelector : String
  targetXPath : String
  targetElement : String
  maskedText : String
  pageURL : String
  pageTitle : String
  screenshotID : String
  aiDescription : String
  isEdited : Bool
deriving Repr, DecidableEq, Inhabited

/-- Struct `db.Session` (fields read by the builder). -/
structure Session where
  id : String
  projectId : String
  title : String
deriving Repr, DecidableEq

/-- Struct `db.Project` (fields read by the builder). -/
structure Project where
  id : String
  name : String
deriving Repr, DecidableEq

/-- Struct `db.Screenshot` (fields read by the builder). -/
structure Screenshot where
  id : String
  sessionId : String
  stepId : String
  dataURL : String
deriving Repr, DecidableEq

/-- The relational store as seen by `BuildDocument`: plain tables.  Queries
are embedded as list operations; the `Order("step_index")` clause of the step
query is the store's contract and appears as a sortedness hypothesis where an
ordering claim needs it. -/
structure DBState where
  sessions : List Session
  projects : List Project
  steps : List RecordingStep
  screenshots : List Screenshot

/-- Query `db.DB.Where("session_id = ?", sessionID).Order("step_index").Find(&steps)`. -/
def stepsQuery (db : DBState) (sessionID : String) : List RecordingStep :=
  db.steps.filter (fun s => s.sessionId == sessionID)

/-- The `screenshotMap` built in `BuildDocument`: insert in table order (a
later row for the same step id overwrites), read with the Go map's zero-value
default `""`. -/
def lookupShot (shots : List Screenshot) (stepId : String) : String :=
  match shots.foldl
      (fun acc sc => if sc.stepId == stepId then some sc.dataURL else acc) none with
  | some u => u
  | none => ""

/-- Struct `DocStep` (service/doc.go). -/
structure DocStep where
  stepIndex : Int
  action : String
  description : String
  techNote : String
  screenshotID : String
  screenshotURL : String
  pageURL : String
  pageTitle : String
  isEdited : Bool
deriving Repr, DecidableEq

/-- Struct `DocSection` (service/doc.go). -/
structure DocSection where
  sectionIndex : Int
  title : String
  steps : List DocStep
deriving Repr, DecidableEq

/-- Struct `GeneratedDocContent` (service/doc.go). -/
structure GeneratedDocContent where
  sessionTitle : String
  projectName : String
  generatedAt : String
  businessView : List DocSection
  technicalView : List DocSection
deriving Repr, DecidableEq

/-- The merge key implicit in `BuildDocument`'s `canMerge` test: page title
together with the parsed page-region (`stepContext.location`). -/
def stepKey (s : RecordingStep) : String × String :=
  (s.pageTitle, (parseStep s.targetElement s.action).location)

/-- Test `canMerge` in `BuildDocument`'s grouping loop: the incoming step is
compared against the *first* step of the current group. -/
def canMerge (step first : RecordingStep) : Bool :=
  step.pageTitle == first.pageTitle &&
    (parseStep step.targetElement step.action).location ==
      (parseStep first.targetElement first.action).location

/-- The grouping loop of `BuildDocument`: `cur` is `currentGroup`; a step
that cannot merge flushes the current group and starts a fresh one. -/
def buildGroupsAux (cur : List RecordingStep) :
    List RecordingStep → List (List RecordingStep)
  | [] => if cur.isEmpty then [] else [cur]
  | step :: rest =>
    match cur with
    | [] => buildGroupsAux [step] rest
    | first :: _ =>
      if canMerge step first then buildGroupsAux (cur ++ [step]) rest
      else cur :: buildGroupsAux [step] rest

/-- The complete run decomposition performed by `BuildDocument`. -/
def buildGroups (steps : List RecordingStep) : List (List RecordingStep) :=
  buildGroupsAux [] steps

/-- The description computed in `flushGroup`: a length-1 group uses the
step's own description (falling back to its target text); a longer group is
collapsed into one synthesized sentence; an empty description falls back to
the generic performed-action phrase. -/
def groupDesc (g : List RecordingStep) : String :=
  let first := g.headI
  let desc :=
    match g with
    | [] => ""
    | [only] => if only.aiDescription = "" then only.targetElement else only.aiDescription
    | _ :: _ :: _ =>
      let firstCtx := parseStep first.targetElement first.action
      let actions := g.map fun s =>
        let ctx := parseStep s.targetElement s.action
        ctx.verb ++ " 【" ++ ctx.compName ++ "】"
      let lastPurpose :=
        g.foldl (fun _ s => (parseStep s.targetElement s.action).purpose) ""
      "在 " ++ first.pageTitle ++ " 页面的 " ++ firstCtx.location ++ "，依次 " ++
        String.intercalate "、" actions ++ "，最终实现 " ++ lastPurpose ++ "。"
  if desc = "" then "在 [" ++ first.pageTitle ++ "] 页面执行 " ++ first.action ++ " 操作"
  else desc

/-- The business-view `DocStep` built by `flushGroup`: representative
step-index / page-title / edited-flag from the group's first step, screenshot
reference from its last step. -/
def flushBiz (shotOf : String → String) (g : List RecordingStep) : DocStep :=
  let first := g.headI
  let last := g.getLastI
  { stepIndex := first.stepIndex
    action := first.action
    description := groupDesc g
    techNote := ""
    screenshotID := last.screenshotID
    screenshotURL := shotOf last.id
    pageURL := ""
    pageTitle := first.pageTitle
    isEdited := first.isEdited }

/-- The technical-view `DocStep` emitted (one per step, unmerged) in
`flushGroup`'s second loop; `IsEdited` is left at its zero value. -/
def techStepOf (shotOf : String → String) (s : RecordingStep) : DocStep :=
  { stepIndex := s.stepIndex
    action := s.action
    description := s.targetElement
    techNote := "元素：" ++ s.targetElement ++ "\nXPath：" ++ s.targetXPath ++
      "\nCSS：" ++ s.targetSelector ++ "\nAction：" ++ s.action
    screenshotID := s.screenshotID
    screenshotURL := shotOf s.id
    pageURL := s.pageURL
    pageTitle := s.pageTitle
    isEdited := false }

/-- Function `BuildDocument` (service/doc.go).  `now` stands for
`time.Now().Format(...)`.  The session lookup is the single fallible query
(its error is wrapped as "session not found"); the project lookup's error is
ignored, leaving the zero-value `Project`; the step and screenshot queries'
errors are likewise ignored. -/
def buildDocument (db : DBState) (now : String) (sessionID : String) :
    Except String GeneratedDocContent :=
  match db.sessions.find? (fun s => s.id == sessionID) with
  | none => .error "session not found"
  | some session =>
    let project := (db.projects.find? (fun p => p.id == session.projectId)).getD ⟨"", ""⟩
    let steps := stepsQuery db sessionID
    let shotOf := lookupShot (db.screenshots.filter (fun sc => sc.sessionId == sessionID))
    let groups := buildGroups steps
    let bizSteps := groups.map (flushBiz shotOf)
    let techSteps := (groups.map (fun g => g.map (techStepOf shotOf))).flatten
    .ok
      { sessionTitle := session.title
        projectName := project.name
        generatedAt := now
        businessView := [⟨1, session.title ++ " - 操作说明", bizSteps⟩]
        technicalView := [⟨1, session.title ++ " - 技术参考", techSteps⟩] }

/-! ## Markdown export (service/doc.go, `GenerateMarkdown`)

`strings.Builder` concatenates its `WriteString` arguments in call order; the
embedding first lists those arguments (`mdChunks`) and then joins them. -/

/-- The `### 第 %d 步` heading written for one document step. -/
def headingChunk (k : Int) : String :=
  "### 第 " ++ toString k ++ " 步\n\n"

/-- The `WriteString` calls of the inner per-step loop of `GenerateMarkdown`. -/
def stepChunks (step : DocStep) : List String :=
  [headingChunk step.stepIndex, step.description ++ "\n\n"] ++
    (if step.techNote ≠ "" then ["```\n" ++ step.techNote ++ "\n```\n\n"] else []) ++
    (if step.screenshotURL ≠ "" then
      ["![步骤" ++ toString step.stepIndex ++ "截图](" ++ step.screenshotURL ++ ")\n\n"]
    else []) ++
    ["---\n\n"]

/-- The `WriteString` calls for one section. -/
def sectionChunks (sec : DocSection) : List String :=
  ("## " ++ sec.title ++ "\n\n") :: (sec.steps.map stepChunks).flatten

/-- All `WriteString` calls of `GenerateMarkdown`, in order. -/
def mdChunks (content : GeneratedDocContent) (viewType : String) : List String :=
  ["# " ++ content.sessionTitle ++ "\n\n",
   "> 项目：" ++ content.projectName ++ "  \n> 生成时间：" ++ content.generatedAt ++
     "\n\n---\n\n"] ++
  (if viewType == "technical" then
    "## 技术参考文档\n\n" :: (content.technicalView.map sectionChunks).flatten
  else
    "## 操作说明文档\n\n" :: (content.businessView.map sectionChunks).flatten)

/-- Function `GenerateMarkdown` (service/doc.go). -/
def generateMarkdown (content : GeneratedDocContent) (viewType : String) : String :=
  String.join (mdChunks content viewType)

/-- Character-level list-prefix test, recursing on the pattern first. -/
def listStarts : List Char → List Char → Bool
  | [], _ => true
  | _ :: _, [] => false
  | p :: ps, c :: cs => p == c && listStarts ps cs

/-- Character-level string-prefix test, used to characterize heading chunks. -/
def strStartsWith (s pre : String) : Bool :=
  listStarts pre.data s.data

/-! ## Batch progress coordinator (service/ai.go, `GenerateDocForSession`) -/

/-- Struct `DocGenerateProgress` (service/ai.go); unset fields keep Go zero values. -/
structure DocGenerateProgress where
  current : Int
  total : Int
  stepID : String
  done : Bool
  error : String
deriving Repr, DecidableEq

/-- Environment of one `GenerateDocForSession` run.
`loadSteps` is the outcome of the ordered step query for the session (the
only propagated failure).  `screenshotData id` is the `DataURL` produced by
the screenshot lookup (`""` when the row is missing — that query's error is
ignored, leaving the zero value).  `persistOK stepId` is whether the
`Update("ai_description", ...)` write succeeds; the Go code discards the
returned `*gorm.DB` (and hence its `.Error`), so nothing downstream may
depend on it.  `netAt i` is the network oracle for the `i`-th step's
`GenerateStepDescription` call. -/
structure GenEnv where
  cfg : LLMConfig
  loadSteps : Except String (List RecordingStep)
  screenshotData : String → String
  persistOK : String → Bool
  netAt : Nat → Net

/-- The body of the per-step loop: given the enumerated position and step,
produce the emitted progress event and the persistence attempt (step id and
description written), if any.  Mirrors service/ai.go lines 522–550: the
screenshot is loaded only when `ScreenshotID` is set; a (dead) error branch
emits the event with the error recorded and skips persistence; otherwise the
description is written back — with the write's error discarded — and a clean
event is emitted. -/
def stepIteration (env : GenEnv) (total : Nat) (i : Nat) (step : RecordingStep) :
    DocGenerateProgress × List (String × String) :=
  let screenshotB64 :=
    if step.screenshotID ≠ "" then env.screenshotData step.screenshotID else ""
  let req : VLMRequest :=
    ⟨step.action, step.targetElement, step.pageURL, step.pageTitle,
      step.maskedText, screenshotB64⟩
  match generateStepDescription env.cfg (env.netAt i) req with
  | .error e => (⟨(i : Int) + 1, (total : Int), step.id, false, e⟩, [])
  | .ok resp =>
    (⟨(i : Int) + 1, (total : Int), step.id, false, ""⟩, [(step.id, resp.description)])

/-- Function `GenerateDocForSession` (service/ai.go).  Returns the ordered progress
events sent on the channel together with the ordered persistence attempts
(`ai_description` writes); fails only when the step query fails. -/
def generateDocForSession (env : GenEnv) :
    Except String (List DocGenerateProgress × List (String × String)) :=
  match env.loadSteps with
  | .error e => .error e
  | .ok steps =>
    let total := steps.length
    let iters := steps.enum.map fun p => stepIteration env total p.1 p.2
    .ok (iters.map Prod.fst ++ [⟨0, (total : Int), "", true, ""⟩],
         (iters.map Prod.snd).flatten)

/-! ## Router lemmas -/

/-- Predicate stating `sub` occurs in `s` as a contiguous substring. -/
def containsStr (s sub : String) : Prop :=
  ∃ l r, l ++ sub.data ++ r = s.data

theorem ruleBased_ne_empty (req : VLMRequest) : ruleBasedDescription req ≠ "" := by
  unfold ruleBasedDescription
  split
  · intro h
    have := congrArg String.data h
    simp [String.data_append] at this
  · intro h
    have := congrArg String.data h
    simp [String.data_append] at this

theorem tryChain_none (net : Net) (es : List ChainEntry)
    (h : ∀ e ∈ es, e.enabled = true → net.callResult e.name = none) :
    tryChain net es = none := by
  induction es with
  | nil => rfl
  | cons e rest ih =>
    have hrest := fun e' he' => h e' (List.mem_cons_of_mem e he')
    by_cases hen : e.enabled = true
    · have hc := h e (List.mem_cons_self e rest) hen
      simp [tryChain, hen, hc, ih hrest]
    · simp [tryChain, Bool.eq_false_iff.mpr hen, ih hrest]

theorem tryChain_provider_mem (net : Net) (es : List ChainEntry) (resp : VLMResponse)
    (h : tryChain net es = some resp) : resp.provider ∈ es.map ChainEntry.name := by
  induction es with
  | nil => simp [tryChain] at h
  | cons e rest ih =>
    by_cases hen : e.enabled = true
    · rcases hc : net.callResult e.name with _ | s
      · simp only [tryChain, hen, if_true, hc] at h
        exact List.mem_cons_of_mem _ (ih h)
      · simp only [tryChain, hen, if_true, hc] at h
        cases h
        exact List.mem_cons_self _ _
    · simp only [tryChain, hen, if_false, Bool.eq_false_iff.mpr hen] at h
      exact List.mem_cons_of_mem _ (ih h)

theorem tryChain_first_success (net : Net) (pre : List ChainEntry) (e : ChainEntry)
    (post : List ChainEntry) (s : String)
    (hpre : ∀ e' ∈ pre, e'.enabled = false ∨ net.callResult e'.name = none)
    (hen : e.enabled = true) (hs : net.callResult e.name = some s) :
    tryChain net (pre ++ e :: post) = some ⟨s, e.name, e.isFree⟩ := by
  induction pre with
  | nil => simp [tryChain, hen, hs]
  | cons e' pre' ih =>
    have hrest := fun x hx => hpre x (List.mem_cons_of_mem e' hx)
    rcases hpre e' (List.mem_cons_self e' pre') with hdis | hfail
    · simp [tryChain, hdis, ih hrest]
    · by_cases hen' : e'.enabled = true
      · simp [tryChain, hen', hfail, ih hrest]
      · simp [tryChain, Bool.eq_false_iff.mpr hen', ih hrest]

/-- C1 helper: `GenerateStepDescription` returns `Except.ok` on every path. -/
theorem generateStepDescription_ok (cfg : LLMConfig) (net : Net) (req : VLMRequest) :
    ∃ resp, generateStepDescription cfg net req = .ok resp := by
  unfold generateStepDescription
  rcases tryChain net (chain cfg net) with _ | resp
  · exact ⟨_, rfl⟩
  · exact ⟨resp, rfl⟩

/-- The fixed provider identifier set of the spec: five providers plus the
rule-based fallback. -/
def providerIds : List String :=
  ["ollama", "zhipu", "gemini", "openrouter", "openai", "rule-based"]

/-- C1 (amended): `GenerateStepDescription` never returns an error and its
provider identifier is always from the fixed five-plus-fallback set; when
every enabled provider call fails (in particular when none is enabled) it
returns the rule-based terminal response, whose description is non-empty.  A
successful provider call's trimmed text is returned verbatim, however, so on
the provider path the description can be empty. -/
theorem router_never_errors (cfg : LLMConfig) (net : Net) (req : VLMRequest) :
    (∃ resp, generateStepDescription cfg net req = .ok resp ∧
      resp.provider ∈ providerIds) ∧
    ((∀ e ∈ chain cfg net, e.enabled = true → net.callResult e.name = none) →
      generateStepDescription cfg net req =
        .ok ⟨ruleBasedDescription req, "rule-based", true⟩ ∧
      ruleBasedDescription req ≠ "") := by
  constructor
  · rcases htc : tryChain net (chain cfg net) with _ | resp
    · refine ⟨⟨ruleBasedDescription req, "rule-based", true⟩, ?_,
        show "rule-based" ∈ providerIds by decide⟩
      simp [generateStepDescription, htc]
    · refine ⟨resp, by simp [generateStepDescription, htc], ?_⟩
      have hmem := tryChain_provider_mem net _ resp htc
      have hnames : (chain cfg net).map ChainEntry.name =
          ["ollama", "zhipu", "gemini", "openrouter", "openai"] := rfl
      rw [hnames] at hmem
      have hsub : ∀ x ∈ ["ollama", "zhipu", "gemini", "openrouter", "openai"],
          x ∈ providerIds := by decide
      exact hsub _ hmem
  · intro h
    refine ⟨?_, ruleBased_ne_empty req⟩
    simp [generateStepDescription, tryChain_none net _ h]

/-- C1 witness: the terminal rule-based case at a concrete no-provider
configuration. -/
theorem router_never_errors_witness :
    generateStepDescription ⟨"", "", "", ""⟩ ⟨false, fun _ => none⟩
        ⟨"input", "用户名输入框", "http://a", "登录页", "用户名", ""⟩ =
      .ok ⟨ruleBasedDescription ⟨"input", "用户名输入框", "http://a", "登录页", "用户名", ""⟩,
        "rule-based", true⟩ ∧
    ruleBasedDescription ⟨"input", "用户名输入框", "http://a", "登录页", "用户名", ""⟩ ≠ "" :=
  (router_never_errors ⟨"", "", "", ""⟩ ⟨false, fun _ => none⟩
      ⟨"input", "用户名输入框", "http://a", "登录页", "用户名", ""⟩).2 (by decide)

/-- C1 counterexample: with the zhipu key configured and the zhipu call
succeeding with an empty trimmed text (an HTTP 200 whose `content` is
whitespace passes every adapter check), the returned description is empty —
refuting the claim that every response's description is non-empty. -/
theorem router_empty_description_counterexample :
    generateStepDescription ⟨"", "zhipu-key", "", ""⟩
        ⟨false, fun n => if n == "zhipu" then some "" else none⟩
        ⟨"click", "提交按钮", "http://a", "登录页", "登录", ""⟩ =
      .ok ⟨"", "zhipu", true⟩ ∧
    ¬ (∀ resp,
        generateStepDescription ⟨"", "zhipu-key", "", ""⟩
            ⟨false, fun n => if n == "zhipu" then some "" else none⟩
            ⟨"click", "提交按钮", "http://a", "登录页", "登录", ""⟩ = .ok resp →
          resp.description ≠ "") :=
  ⟨rfl, fun h => h ⟨"", "zhipu", true⟩ rfl rfl⟩

/-- C2: the chain is the fixed ordered list
ollama, zhipu, gemini, openrouter, openai with free flags
true, true, true, true, false; ollama is enabled iff the liveness probe
succeeded and each remaining provider iff its effective API key is set; and
whenever every earlier entry is disabled or fails, the response carries the
first enabled succeeding provider's text, name and free flag, errors never
surfacing. -/
theorem chain_priority_order (cfg : LLMConfig) (net : Net) (req : VLMRequest)
    (pre : List ChainEntry) (e : ChainEntry) (post : List ChainEntry) (s : String)
    (hchain : chain cfg net = pre ++ e :: post)
    (hpre : ∀ e' ∈ pre, e'.enabled = false ∨ net.callResult e'.name = none)
    (hen : e.enabled = true) (hs : net.callResult e.name = some s) :
    generateStepDescription cfg net req = .ok ⟨s, e.name, e.isFree⟩ ∧
    (chain cfg net).map ChainEntry.name =
      ["ollama", "zhipu", "gemini", "openrouter", "openai"] ∧
    (chain cfg net).map ChainEntry.isFree = [true, true, true, true, false] ∧
    (chain cfg net).map ChainEntry.enabled =
      [net.ollamaProbeOK, decide (cfg.zhipuAPIKey ≠ ""), decide (cfg.geminiAPIKey ≠ ""),
       decide (cfg.openRouterAPIKey ≠ ""), decide (cfg.openAIAPIKey ≠ "")] := by
  refine ⟨?_, rfl, rfl, rfl⟩
  unfold generateStepDescription
  rw [hchain, tryChain_first_success net pre e post s hpre hen hs]

def c2cfg : LLMConfig := ⟨"gemini-key", "", "", ""⟩

def c2net : Net := ⟨false, fun n => if n == "gemini" then some "已生成的描述" else none⟩

def c2req : VLMRequest := ⟨"click", "提交", "http://b", "表单页", "提交", ""⟩

/-- C2 witness: ollama probe down and zhipu unconfigured, so the configured
gemini is the first enabled entry; its success is returned. -/
theorem chain_priority_order_witness :
    (chain c2cfg c2net =
      [⟨"ollama", true, false⟩, ⟨"zhipu", true, false⟩] ++
        ⟨"gemini", true, true⟩ ::
          [⟨"openrouter", true, false⟩, ⟨"openai", false, false⟩]) ∧
    generateStepDescription c2cfg c2net c2req = .ok ⟨"已生成的描述", "gemini", true⟩ :=
  ⟨by decide,
    (chain_priority_order c2cfg c2net c2req
      [⟨"ollama", true, false⟩, ⟨"zhipu", true, false⟩] ⟨"gemini", true, true⟩
      [⟨"openrouter", true, false⟩, ⟨"openai", false, false⟩] "已生成的描述"
      (by decide) (by decide) (by decide) (by decide)).1⟩

/-- C3: with no provider enabled the router returns the rule-based terminal
response with `usedFree = true`; its description contains the page title and
the masked text when present, otherwise the target-element text; and the
concrete click scenario yields exactly "在[登录页]页面，点击[登录]". -/
theorem no_provider_rule_based (cfg : LLMConfig) (net : Net) (req : VLMRequest)
    (hnone : ∀ e ∈ chain cfg net, e.enabled = false) :
    generateStepDescription cfg net req =
      .ok ⟨ruleBasedDescription req, "rule-based", true⟩ ∧
    containsStr (ruleBasedDescription req) req.pageTitle ∧
    (req.maskedText ≠ "" → containsStr (ruleBasedDescription req) req.maskedText) ∧
    (req.maskedText = "" → containsStr (ruleBasedDescription req) req.targetElement) ∧
    generateStepDescription cfg net ⟨"click", "", "", "登录页", "登录", ""⟩ =
      .ok ⟨"在[登录页]页面，点击[登录]", "rule-based", true⟩ := by
  have hfail : ∀ e ∈ chain cfg net, e.enabled = true → net.callResult e.name = none := by
    intro e he hen
    rw [hnone e he] at hen
    cases hen
  have heq : tryChain net (chain cfg net) = none := tryChain_none net _ hfail
  refine ⟨by simp [generateStepDescription, heq], ?_, ?_, ?_, ?_⟩
  · unfold ruleBasedDescription
    split
    · exact ⟨"在[".data, ("]页面，" ++ (if actionMapLookup req.stepAction = "" then
        req.stepAction else actionMapLookup req.stepAction) ++ "[" ++
        req.maskedText ++ "]").data, by simp [String.data_append]⟩
    · exact ⟨"在[".data, ("]页面，" ++ (if actionMapLookup req.stepAction = "" then
        req.stepAction else actionMapLookup req.stepAction) ++ " " ++
        req.targetElement).data, by simp [String.data_append]⟩
  · intro hm
    unfold ruleBasedDescription
    rw [if_pos hm]
    exact ⟨("在[" ++ req.pageTitle ++ "]页面，" ++ (if actionMapLookup req.stepAction = ""
      then req.stepAction else actionMapLookup req.stepAction) ++ "[").data,
      "]".data, by simp [String.data_append]⟩
  · intro hm
    unfold ruleBasedDescription
    rw [if_neg (by simp [hm])]
    exact ⟨("在[" ++ req.pageTitle ++ "]页面，" ++ (if actionMapLookup req.stepAction = ""
      then req.stepAction else actionMapLookup req.stepAction) ++ " ").data,
      [], by simp [String.data_append]⟩
  · simp [generateStepDescription, heq]
    rfl

/-- C3 witness: the all-disabled configuration, instantiated with the
masked-text request of scenario A. -/
theorem no_provider_rule_based_witness :
    (∀ e ∈ chain ⟨"", "", "", ""⟩ ⟨false, fun _ => none⟩, e.enabled = false) ∧
    (generateStepDescription ⟨"", "", "", ""⟩ ⟨false, fun _ => none⟩
        ⟨"click", "登录按钮", "http://c", "登录页", "登录", ""⟩ =
      .ok ⟨ruleBasedDescription ⟨"click", "登录按钮", "http://c", "登录页", "登录", ""⟩,
        "rule-based", true⟩ ∧
     containsStr
       (ruleBasedDescription ⟨"click", "登录按钮", "http://c", "登录页", "登录", ""⟩)
       "登录页") :=
  ⟨by decide,
    (no_provider_rule_based ⟨"", "", "", ""⟩ ⟨false, fun _ => none⟩
        ⟨"click", "登录按钮", "http://c", "登录页", "登录", ""⟩ (by decide)).1,
    ((no_provider_rule_based ⟨"", "", "", ""⟩ ⟨false, fun _ => none⟩
        ⟨"click", "登录按钮", "http://c", "登录页", "登录", ""⟩ (by decide)).2).1⟩

/-! ## Coordinator lemmas (C6, C7) -/

/-- The response value `GenerateStepDescription` wraps in its (always `nil`)
error slot. -/
def describeResult (cfg : LLMConfig) (net : Net) (req : VLMRequest) : VLMResponse :=
  match tryChain net (chain cfg net) with
  | some resp => resp
  | none => ⟨ruleBasedDescription req, "rule-based", true⟩

theorem generateStepDescription_eq (cfg : LLMConfig) (net : Net) (req : VLMRequest) :
    generateStepDescription cfg net req = .ok (describeResult cfg net req) := by
  unfold generateStepDescription describeResult
  cases tryChain net (chain cfg net) <;> rfl

theorem stepIteration_eq (env : GenEnv) (total i : Nat) (step : RecordingStep) :
    stepIteration env total i step =
      (⟨(i : Int) + 1, (total : Int), step.id, false, ""⟩,
       [(step.id, (describeResult env.cfg (env.netAt i)
          ⟨step.action, step.targetElement, step.pageURL, step.pageTitle, step.maskedText,
           if step.screenshotID ≠ "" then env.screenshotData step.screenshotID
           else ""⟩).description)]) := by
  simp only [stepIteration, generateStepDescription_eq]

theorem iters_events (env : GenEnv) (total : Nat) (steps : List RecordingStep) (n : Nat) :
    ((steps.enumFrom n).map fun p => stepIteration env total p.1 p.2).map Prod.fst =
      (steps.enumFrom n).map fun p =>
        (⟨(p.1 : Int) + 1, (total : Int), p.2.id, false, ""⟩ : DocGenerateProgress) := by
  rw [List.map_map]
  apply List.map_congr_left
  intro p _
  rw [Function.comp_apply, stepIteration_eq]

theorem flatten_map_singleton {α β : Type} (l : List α) (f : α → β) :
    ((l.map fun a => [f a]).flatten) = l.map f := by
  induction l with
  | nil => rfl
  | cons a rest ih => simp only [List.map_cons, List.flatten_cons, ih]; rfl

theorem iters_writes (env : GenEnv) (total : Nat) (steps : List RecordingStep) (n : Nat) :
    ((((steps.enumFrom n).map fun p => stepIteration env total p.1 p.2).map
      Prod.snd).flatten).map Prod.fst = steps.map RecordingStep.id := by
  rw [List.map_map]
  have h1 : ((steps.enumFrom n).map (Prod.snd ∘ fun p => stepIteration env total p.1 p.2)) =
      (steps.enumFrom n).map fun p =>
        [((fun q : Nat × RecordingStep => (q.2.id,
            (describeResult env.cfg (env.netAt q.1)
              ⟨q.2.action, q.2.targetElement, q.2.pageURL, q.2.pageTitle, q.2.maskedText,
               if q.2.screenshotID ≠ "" then env.screenshotData q.2.screenshotID
               else ""⟩).description)) p)] := by
    apply List.map_congr_left
    intro p _
    rw [Function.comp_apply, stepIteration_eq]
  rw [h1, flatten_map_singleton, List.map_map]
  have h2 : (Prod.fst ∘ fun q : Nat × RecordingStep => (q.2.id,
      (describeResult env.cfg (env.netAt q.1)
        ⟨q.2.action, q.2.targetElement, q.2.pageURL, q.2.pageTitle, q.2.maskedText,
         if q.2.screenshotID ≠ "" then env.screenshotData q.2.screenshotID
         else ""⟩).description)) = RecordingStep.id ∘ Prod.snd := rfl
  rw [h2, ← List.map_map, List.enumFrom_map_snd]

/-- C6: when the step query succeeds with `N` steps, the batch emits exactly
`N + 1` progress events: one per step with `current` ascending from 1 to `N`,
the step's id, total `N` and no error, followed by a single terminal event
with `done = true` and `current`/`stepID` left unset. -/
theorem generateDocForSession_eq (env : GenEnv) (steps : List RecordingStep)
    (hload : env.loadSteps = .ok steps) :
    generateDocForSession env = .ok
      ((steps.enum.map fun p =>
          (⟨(p.1 : Int) + 1, (steps.length : Int), p.2.id, false, ""⟩ :
            DocGenerateProgress)) ++
        [⟨0, (steps.length : Int), "", true, ""⟩],
       (((steps.enum.map fun p => stepIteration env steps.length p.1 p.2).map
          Prod.snd).flatten)) := by
  simp only [generateDocForSession, hload]
  have h := iters_events env steps.length steps 0
  rw [show steps.enumFrom 0 = steps.enum from rfl] at h
  rw [h]

theorem batch_progress_events (env : GenEnv) (steps : List RecordingStep)
    (hload : env.loadSteps = .ok steps) :
    ∃ events writes, generateDocForSession env = .ok (events, writes) ∧
      events = (steps.enum.map fun p =>
        (⟨(p.1 : Int) + 1, (steps.length : Int), p.2.id, false, ""⟩ :
          DocGenerateProgress)) ++
        [⟨0, (steps.length : Int), "", true, ""⟩] ∧
      events.length = steps.length + 1 :=
  ⟨_, _, generateDocForSession_eq env steps hload, rfl, by simp⟩

def c6step1 : RecordingStep :=
  ⟨"st1", "sess6", 1, "click", "", "", "元素1", "", "", "页A", "", "", false⟩

def c6step2 : RecordingStep :=
  ⟨"st2", "sess6", 2, "click", "", "", "元素2", "", "", "页A", "", "", false⟩

def c6step3 : RecordingStep :=
  ⟨"st3", "sess6", 3, "input", "", "", "元素3", "", "", "页B", "", "", false⟩

def c6env : GenEnv :=
  ⟨⟨"", "", "", ""⟩, .ok [c6step1, c6step2, c6step3], fun _ => "", fun _ => true,
    fun _ => ⟨false, fun _ => none⟩⟩

/-- C6 witness: scenario E, batch generation over 3 steps. -/
theorem batch_progress_events_witness :
    c6env.loadSteps = .ok [c6step1, c6step2, c6step3] ∧
    (∃ events writes, generateDocForSession c6env = .ok (events, writes) ∧
      events = ([c6step1, c6step2, c6step3].enum.map fun p =>
        (⟨(p.1 : Int) + 1, (3 : Int), p.2.id, false, ""⟩ : DocGenerateProgress)) ++
        [⟨0, (3 : Int), "", true, ""⟩] ∧
      events.length = 3 + 1) :=
  ⟨rfl, batch_progress_events c6env [c6step1, c6step2, c6step3] rfl⟩

/-- C7 (amended): a persistence failure during batch generation is silently
ignored — every progress event carries an empty error field regardless of
write outcomes, the batch still runs to completion over all steps, and the
write is attempted exactly once per step, in step order, never retried. -/
theorem persistence_failure_ignored (env : GenEnv) (steps : List RecordingStep)
    (hload : env.loadSteps = .ok steps) :
    ∃ events writes, generateDocForSession env = .ok (events, writes) ∧
      (∀ ev ∈ events, ev.error = "") ∧
      events.length = steps.length + 1 ∧
      writes.map Prod.fst = steps.map RecordingStep.id := by
  refine ⟨_, _, generateDocForSession_eq env steps hload, ?_, by simp, ?_⟩
  · intro ev hmem
    rcases List.mem_append.mp hmem with hm | hm
    · obtain ⟨p, _, hp⟩ := List.mem_map.mp hm
      rw [← hp]
    · rw [List.mem_singleton] at hm
      rw [hm]
  · have h := iters_writes env steps.length steps 0
    rw [show steps.enumFrom 0 = steps.enum from rfl] at h
    exact h

def c7step1 : RecordingStep :=
  ⟨"s1", "sess7", 1, "click", "", "", "元素1", "", "", "页A", "", "", false⟩

def c7step2 : RecordingStep :=
  ⟨"s2", "sess7", 2, "click", "", "", "元素2", "", "", "页A", "", "", false⟩

/-- Batch environment in which persisting step `s1`'s description fails. -/
def c7env : GenEnv :=
  ⟨⟨"", "", "", ""⟩, .ok [c7step1, c7step2], fun _ => "",
    fun stepId => !(stepId == "s1"), fun _ => ⟨false, fun _ => none⟩⟩

/-- C7 counterexample: with the write for step `s1` failing, the batch still
emits `s1`'s progress event with an *empty* error field (the `Update`'s
returned error object is discarded in the Go code), refuting the claim that
a persistence failure is recorded in that step's progress event. -/
theorem persistence_error_not_recorded_counterexample :
    c7env.persistOK "s1" = false ∧
    generateDocForSession c7env = .ok
      ([⟨1, 2, "s1", false, ""⟩, ⟨2, 2, "s2", false, ""⟩, ⟨0, 2, "", true, ""⟩],
       [("s1", "在[页A]页面，点击 元素1"), ("s2", "在[页A]页面，点击 元素2")]) ∧
    ¬ ((⟨1, 2, "s1", false, ""⟩ : DocGenerateProgress).error ≠ "") :=
  ⟨rfl, rfl, fun h => h rfl⟩

/-- C7 amended-claim witness: the same failing-persistence environment run
through the amended theorem. -/
theorem persistence_failure_ignored_witness :
    c7env.loadSteps = .ok [c7step1, c7step2] ∧
    (∃ events writes, generateDocForSession c7env = .ok (events, writes) ∧
      (∀ ev ∈ events, ev.error = "") ∧
      events.length = [c7step1, c7step2].length + 1 ∧
      writes.map Prod.fst = [c7step1, c7step2].map RecordingStep.id) :=
  ⟨rfl, persistence_failure_ignored c7env [c7step1, c7step2] rfl⟩

/-! ## Grouping lemmas for the document builder -/

theorem canMerge_iff (a b : RecordingStep) :
    canMerge a b = true ↔ stepKey a = stepKey b := by
  simp [canMerge, stepKey, Prod.ext_iff]

/-- All members of a group share the key of its first element; this is the
loop invariant maintained for `currentGroup`. -/
def keyConst (g : List RecordingStep) : Prop :=
  ∀ s ∈ g, stepKey s = stepKey g.headI

theorem keyConst_singleton (a : RecordingStep) : keyConst [a] := by
  intro s hs
  rw [List.mem_singleton] at hs
  rw [hs]
  rfl

theorem keyConst_snoc (first : RecordingStep) (t : List RecordingStep)
    (step : RecordingStep) (h : keyConst (first :: t))
    (hk : stepKey step = stepKey first) : keyConst ((first :: t) ++ [step]) := by
  intro s hs
  rcases List.mem_append.mp hs with hm | hm
  · exact h s hm
  · rw [List.mem_singleton] at hm
    rw [hm]
    exact hk

theorem buildGroupsAux_flatten :
    ∀ (steps cur : List RecordingStep), (buildGroupsAux cur steps).flatten = cur ++ steps := by
  intro steps
  induction steps with
  | nil =>
    intro cur
    match cur with
    | [] => rfl
    | first :: t => simp [buildGroupsAux]
  | cons step rest ih =>
    intro cur
    match cur with
    | [] => simp [buildGroupsAux, ih]
    | first :: t =>
      by_cases hm : canMerge step first = true
      · rw [show buildGroupsAux (first :: t) (step :: rest) =
            buildGroupsAux ((first :: t) ++ [step]) rest by simp [buildGroupsAux, hm]]
        rw [ih]
        simp
      · rw [show buildGroupsAux (first :: t) (step :: rest) =
            (first :: t) :: buildGroupsAux [step] rest by simp [buildGroupsAux, hm]]
        rw [List.flatten_cons, ih]
        simp

theorem buildGroupsAux_ne_nil :
    ∀ (steps cur : List RecordingStep), cur ≠ [] →
      ∀ g ∈ buildGroupsAux cur steps, g ≠ [] := by
  intro steps
  induction steps with
  | nil =>
    intro cur hcur g hg
    match cur with
    | first :: t =>
      simp only [buildGroupsAux] at hg
      simp at hg
      rw [hg]
      exact List.cons_ne_nil first t
  | cons step rest ih =>
    intro cur hcur g hg
    match cur with
    | first :: t =>
      by_cases hm : canMerge step first = true
      · rw [show buildGroupsAux (first :: t) (step :: rest) =
            buildGroupsAux ((first :: t) ++ [step]) rest by simp [buildGroupsAux, hm]] at hg
        exact ih ((first :: t) ++ [step]) (by simp) g hg
      · rw [show buildGroupsAux (first :: t) (step :: rest) =
            (first :: t) :: buildGroupsAux [step] rest by simp [buildGroupsAux, hm]] at hg
        rcases List.mem_cons.mp hg with hm' | hm'
        · rw [hm']
          exact List.cons_ne_nil first t
        · exact ih [step] (List.cons_ne_nil step []) g hm'

theorem buildGroupsAux_keyConst :
    ∀ (steps cur : List RecordingStep), keyConst cur →
      ∀ g ∈ buildGroupsAux cur steps, keyConst g := by
  intro steps
  induction steps with
  | nil =>
    intro cur hcur g hg
    match cur with
    | [] => cases hg
    | first :: t =>
      simp only [buildGroupsAux] at hg
      simp at hg
      rw [hg]
      exact hcur
  | cons step rest ih =>
    intro cur hcur g hg
    match cur with
    | [] => exact ih [step] (keyConst_singleton step) g hg
    | first :: t =>
      by_cases hm : canMerge step first = true
      · rw [show buildGroupsAux (first :: t) (step :: rest) =
            buildGroupsAux ((first :: t) ++ [step]) rest by simp [buildGroupsAux, hm]] at hg
        exact ih _ (keyConst_snoc first t step hcur ((canMerge_iff step first).mp hm)) g hg
      · rw [show buildGroupsAux (first :: t) (step :: rest) =
            (first :: t) :: buildGroupsAux [step] rest by simp [buildGroupsAux, hm]] at hg
        rcases List.mem_cons.mp hg with hm' | hm'
        · rw [hm']
          exact hcur
        · exact ih [step] (keyConst_singleton step) g hm'

theorem buildGroupsAux_first :
    ∀ (steps : List RecordingStep) (first : RecordingStep) (t : List RecordingStep),
      ∃ ext gs, buildGroupsAux (first :: t) steps = ((first :: t) ++ ext) :: gs := by
  intro steps
  induction steps with
  | nil =>
    intro first t
    exact ⟨[], [], by simp [buildGroupsAux]⟩
  | cons step rest ih =>
    intro first t
    by_cases hm : canMerge step first = true
    · obtain ⟨ext, gs, hgs⟩ := ih first (t ++ [step])
      refine ⟨[step] ++ ext, gs, ?_⟩
      rw [show buildGroupsAux (first :: t) (step :: rest) =
          buildGroupsAux ((first :: t) ++ [step]) rest by simp [buildGroupsAux, hm]]
      rw [show (first :: t) ++ [step] = first :: (t ++ [step]) by simp]
      rw [hgs]
      simp
    · refine ⟨[], buildGroupsAux [step] rest, ?_⟩
      rw [show buildGroupsAux (first :: t) (step :: rest) =
          (first :: t) :: buildGroupsAux [step] rest by simp [buildGroupsAux, hm]]
      simp

theorem buildGroupsAux_chain :
    ∀ (steps cur : List RecordingStep), cur ≠ [] → keyConst cur →
      List.Chain' (fun g h => stepKey g.headI ≠ stepKey h.headI)
        (buildGroupsAux cur steps) := by
  intro steps
  induction steps with
  | nil =>
    intro cur hcur _
    match cur with
    | first :: t =>
      have : buildGroupsAux (first :: t) [] = [first :: t] := by simp [buildGroupsAux]
      rw [this]
      exact List.chain'_singleton _
  | cons step rest ih =>
    intro cur hcur hkey
    match cur with
    | first :: t =>
      by_cases hm : canMerge step first = true
      · rw [show buildGroupsAux (first :: t) (step :: rest) =
            buildGroupsAux ((first :: t) ++ [step]) rest by simp [buildGroupsAux, hm]]
        exact ih _ (by simp)
          (keyConst_snoc first t step hkey ((canMerge_iff step first).mp hm))
      · rw [show buildGroupsAux (first :: t) (step :: rest) =
            (first :: t) :: buildGroupsAux [step] rest by simp [buildGroupsAux, hm]]
        obtain ⟨ext, gs, hgs⟩ := buildGroupsAux_first rest step []
        rw [hgs]
        refine List.Chain'.cons ?_ (hgs ▸ ih [step] (List.cons_ne_nil step [])
          (keyConst_singleton step))
        show stepKey (first :: t).headI ≠ stepKey ([step] ++ ext).headI
        intro hcontra
        exact hm ((canMerge_iff step first).mpr hcontra.symm)

theorem buildGroups_flatten (steps : List RecordingStep) :
    (buildGroups steps).flatten = steps :=
  buildGroupsAux_flatten steps []

theorem buildGroups_ne_nil (steps : List RecordingStep) :
    ∀ g ∈ buildGroups steps, g ≠ [] := by
  match steps with
  | [] => intro g hg; cases hg
  | s :: rest => exact buildGroupsAux_ne_nil rest [s] (List.cons_ne_nil s [])

theorem buildGroups_keyConst (steps : List RecordingStep) :
    ∀ g ∈ buildGroups steps, keyConst g :=
  buildGroupsAux_keyConst steps [] (fun s hs => absurd hs (List.not_mem_nil s))

theorem buildGroups_chain (steps : List RecordingStep) :
    List.Chain' (fun g h => stepKey g.headI ≠ stepKey h.headI) (buildGroups steps) := by
  match steps with
  | [] => exact List.chain'_nil
  | s :: rest =>
    exact buildGroupsAux_chain rest [s] (List.cons_ne_nil s []) (keyConst_singleton s)

theorem length_le_flatten_length {α : Type} (gs : List (List α))
    (h : ∀ g ∈ gs, g ≠ []) : gs.length ≤ gs.flatten.length := by
  induction gs with
  | nil => exact Nat.le_refl 0
  | cons g rest ih =>
    have hg : 1 ≤ g.length :=
      List.length_pos.mpr (h g (List.mem_cons_self g rest))
    have hr := ih (fun g' hg' => h g' (List.mem_cons_of_mem g hg'))
    simp only [List.length_cons, List.flatten_cons, List.length_append]
    omega

theorem headI_sublist (gs : List (List RecordingStep)) (h : ∀ g ∈ gs, g ≠ []) :
    List.Sublist (gs.map List.headI) gs.flatten := by
  induction gs with
  | nil => exact List.Sublist.refl []
  | cons g rest ih =>
    match g, h g (List.mem_cons_self g rest) with
    | a :: t, _ =>
      simp only [List.map_cons, List.flatten_cons, List.headI, List.cons_append]
      exact List.Sublist.cons₂ a
        ((ih (fun g' hg' => h g' (List.mem_cons_of_mem _ hg'))).trans
          (List.sublist_append_right t rest.flatten))

theorem getLast?_eq_getLastI {α : Type} [Inhabited α] (l : List α) (h : l ≠ []) :
    l.getLast? = some l.getLastI := by
  rw [List.getLastI_eq_getLast?, List.getLast?_eq_getLast l h]

theorem head?_eq_headI {α : Type} [Inhabited α] (l : List α) (h : l ≠ []) :
    l.head? = some l.headI := by
  match l, h with
  | a :: t, _ => rfl

/-! ## C5: representatives of a merged business run -/

def c5target : String :=
  "在 营业执照申请表 页面的 表单填写区，功能为 企业信息 的输入框，实现 营业执照信息填报。"

def c5s1 : RecordingStep :=
  ⟨"st1", "sb", 1, "input", "c1", "x1", c5target, "", "u", "营业执照申请表", "sc1", "", false⟩

def c5s2 : RecordingStep :=
  ⟨"st2", "sb", 2, "input", "c2", "x2", c5target, "", "u", "营业执照申请表", "sc2", "", false⟩

def c5s3 : RecordingStep :=
  ⟨"st3", "sb", 3, "input", "c3", "x3", c5target, "", "u", "营业执照申请表", "sc3", "", false⟩

def c5s4 : RecordingStep :=
  ⟨"st4", "sb", 4, "input", "c4", "x4", c5target, "", "u", "营业执照申请表", "sc4", "", false⟩

def c5s5 : RecordingStep :=
  ⟨"st5", "sb", 5, "click", "c5", "x5", c5target, "", "u", "营业执照申请表", "sc5", "", false⟩

def c5db : DBState :=
  ⟨[⟨"sb", "pb", "营业执照录入"⟩], [⟨"pb", "工商项目"⟩],
   [c5s1, c5s2, c5s3, c5s4, c5s5],
   [⟨"sh1", "sb", "st1", "u1"⟩, ⟨"sh2", "sb", "st2", "u2"⟩, ⟨"sh3", "sb", "st3", "u3"⟩,
    ⟨"sh4", "sb", "st4", "u4"⟩, ⟨"sh5", "sb", "st5", "u5"⟩]⟩

/-- C5: a merged business run (group of length > 1) is rendered as one entry
whose screenshot reference (id and data URL) comes from the run's *last*
step while its step index, page title and edited flag come from the run's
*first* step; and scenario B — five consecutive steps sharing page title
"营业执照申请表" and region "表单填写区" collapse to exactly one business
entry whose screenshot reference is the fifth step's. -/
theorem merged_run_representatives (db : DBState) (now sid : String) (session : Session)
    (i : Nat) (g : List RecordingStep)
    (hfind : db.sessions.find? (fun s => s.id == sid) = some session)
    (hg : (buildGroups (stepsQuery db sid))[i]? = some g)
    (hlen : 1 < g.length) :
    ∃ content first last, buildDocument db now sid = .ok content ∧
      g.head? = some first ∧ g.getLast? = some last ∧
      ((content.businessView.map DocSection.steps).flatten)[i]? =
        some (flushBiz (lookupShot
          (db.screenshots.filter (fun sc => sc.sessionId == sid))) g) ∧
      (flushBiz (lookupShot (db.screenshots.filter
        (fun sc => sc.sessionId == sid))) g).screenshotID = last.screenshotID ∧
      (flushBiz (lookupShot (db.screenshots.filter
        (fun sc => sc.sessionId == sid))) g).screenshotURL =
        lookupShot (db.screenshots.filter (fun sc => sc.sessionId == sid)) last.id ∧
      (flushBiz (lookupShot (db.screenshots.filter
        (fun sc => sc.sessionId == sid))) g).stepIndex = first.stepIndex ∧
      (flushBiz (lookupShot (db.screenshots.filter
        (fun sc => sc.sessionId == sid))) g).pageTitle = first.pageTitle ∧
      (flushBiz (lookupShot (db.screenshots.filter
        (fun sc => sc.sessionId == sid))) g).isEdited = first.isEdited ∧
      (buildDocument c5db "TB" "sb").map (fun c =>
          (c.businessView.map DocSection.steps).flatten.map
            (fun e => (e.screenshotID, e.screenshotURL, e.stepIndex, e.pageTitle))) =
        .ok [("sc5", "u5", 1, "营业执照申请表")] := by
  have hne : g ≠ [] := by
    intro h
    rw [h] at hlen
    cases hlen
  have hok : buildDocument db now sid = .ok
      { sessionTitle := session.title
        projectName :=
          ((db.projects.find? (fun p => p.id == session.projectId)).getD ⟨"", ""⟩).name
        generatedAt := now
        businessView := [⟨1, session.title ++ " - 操作说明",
          (buildGroups (stepsQuery db sid)).map (flushBiz (lookupShot
            (db.screenshots.filter (fun sc => sc.sessionId == sid))))⟩]
        technicalView := [⟨1, session.title ++ " - 技术参考",
          ((buildGroups (stepsQuery db sid)).map (fun g => g.map (techStepOf (lookupShot
            (db.screenshots.filter (fun sc => sc.sessionId == sid)))))).flatten⟩] } := by
    rw [buildDocument, hfind]
  refine ⟨_, g.headI, g.getLastI, hok, head?_eq_headI g hne, getLast?_eq_getLastI g hne,
    ?_, rfl, rfl, rfl, rfl, rfl, rfl⟩
  simp only [List.map_cons, List.map_nil, List.flatten_cons, List.flatten_nil,
    List.append_nil, List.getElem?_map, hg]
  rfl

/-- C5 witness: scenario B's five-step run instantiated in the theorem. -/
theorem merged_run_representatives_witness :
    c5db.sessions.find? (fun s => s.id == "sb") = some ⟨"sb", "pb", "营业执照录入"⟩ ∧
    (buildGroups (stepsQuery c5db "sb"))[0]? = some [c5s1, c5s2, c5s3, c5s4, c5s5] ∧
    1 < ([c5s1, c5s2, c5s3, c5s4, c5s5] : List RecordingStep).length ∧
    (∃ content first last, buildDocument c5db "TB" "sb" = .ok content ∧
      ([c5s1, c5s2, c5s3, c5s4, c5s5] : List RecordingStep).head? = some first ∧
      ([c5s1, c5s2, c5s3, c5s4, c5s5] : List RecordingStep).getLast? = some last ∧
      ((content.businessView.map DocSection.steps).flatten)[0]? =
        some (flushBiz (lookupShot
          (c5db.screenshots.filter (fun sc => sc.sessionId == "sb")))
          [c5s1, c5s2, c5s3, c5s4, c5s5]) ∧
      (flushBiz (lookupShot (c5db.screenshots.filter
        (fun sc => sc.sessionId == "sb"))) [c5s1, c5s2, c5s3, c5s4, c5s5]).screenshotID =
        last.screenshotID ∧
      (flushBiz (lookupShot (c5db.screenshots.filter
        (fun sc => sc.sessionId == "sb"))) [c5s1, c5s2, c5s3, c5s4, c5s5]).screenshotURL =
        lookupShot (c5db.screenshots.filter (fun sc => sc.sessionId == "sb")) last.id ∧
      (flushBiz (lookupShot (c5db.screenshots.filter
        (fun sc => sc.sessionId == "sb"))) [c5s1, c5s2, c5s3, c5s4, c5s5]).stepIndex =
        first.stepIndex ∧
      (flushBiz (lookupShot (c5db.screenshots.filter
        (fun sc => sc.sessionId == "sb"))) [c5s1, c5s2, c5s3, c5s4, c5s5]).pageTitle =
        first.pageTitle ∧
      (flushBiz (lookupShot (c5db.screenshots.filter
        (fun sc => sc.sessionId == "sb"))) [c5s1, c5s2, c5s3, c5s4, c5s5]).isEdited =
        first.isEdited ∧
      (buildDocument c5db "TB" "sb").map (fun c =>
          (c.businessView.map DocSection.steps).flatten.map
            (fun e => (e.screenshotID, e.screenshotURL, e.stepIndex, e.pageTitle))) =
        .ok [("sc5", "u5", 1, "营业执照申请表")]) :=
  ⟨by decide, by decide, by decide,
    merged_run_representatives c5db "TB" "sb" ⟨"sb", "pb", "营业执照录入"⟩ 0
      [c5s1, c5s2, c5s3, c5s4, c5s5] (by decide) (by decide) (by decide)⟩

/-! ## C10: anchor-free target texts parse to defaults and always merge -/

/-- The target text contains none of the three landmark anchors of
`parseStep`. -/
def noAnchors (t : String) : Prop :=
  firstIdx? "页面的 ".data t.data = none ∧
  firstIdx? "功能为 ".data t.data = none ∧
  firstIdx? "实现 ".data t.data = none

instance (t : String) : Decidable (noAnchors t) := by
  unfold noAnchors
  infer_instance

theorem parseStep_location_default (t action : String)
    (h : firstIdx? "页面的 ".data t.data = none) :
    (parseStep t action).location = "页面区域" := by
  simp [parseStep, afterFirst?, h]

theorem parseStep_compName_default (t action : String)
    (h : firstIdx? "功能为 ".data t.data = none) :
    (parseStep t action).compName = "组件" := by
  simp [parseStep, afterFirst?, h]

theorem parseStep_purpose_default (t action : String)
    (h : firstIdx? "实现 ".data t.data = none) :
    (parseStep t action).purpose = "业务交互" := by
  simp [parseStep, afterFirst?, h]

/-- Core adjacency lemma for the grouping loop: two adjacent steps with equal
merge keys always land in the same group, wherever they sit in the list. -/
theorem buildGroupsAux_adjacent :
    ∀ (steps cur pre post : List RecordingStep) (a b : RecordingStep),
      cur ≠ [] → keyConst cur → cur ++ steps = pre ++ a :: b :: post →
      stepKey a = stepKey b →
      ∃ g ∈ buildGroupsAux cur steps, ∃ g1 g2, g = g1 ++ a :: b :: g2 := by
  intro steps
  induction steps with
  | nil =>
    intro cur pre post a b hne hkey hsplit hk
    rw [List.append_nil] at hsplit
    match cur, hne with
    | first :: t, _ =>
      refine ⟨first :: t, ?_, pre, post, hsplit⟩
      simp [buildGroupsAux]
  | cons s rest ih =>
    intro cur pre post a b hne hkey hsplit hk
    match cur, hne with
    | first :: t, _ =>
      by_cases hm : canMerge s first = true
      · rw [show buildGroupsAux (first :: t) (s :: rest) =
            buildGroupsAux ((first :: t) ++ [s]) rest by simp [buildGroupsAux, hm]]
        refine ih ((first :: t) ++ [s]) pre post a b (by simp)
          (keyConst_snoc first t s hkey ((canMerge_iff s first).mp hm)) ?_ hk
        rw [List.append_assoc, List.singleton_append]
        exact hsplit
      · rw [show buildGroupsAux (first :: t) (s :: rest) =
            (first :: t) :: buildGroupsAux [s] rest by simp [buildGroupsAux, hm]]
        rcases List.append_eq_append_iff.mp hsplit with ⟨a', hpre, hrest⟩ | ⟨c', hcur, hpost⟩
        · obtain ⟨g, hgmem, g1, g2, hgeq⟩ := ih [s] a' post a b
            (List.cons_ne_nil s []) (keyConst_singleton s)
            (by rw [List.singleton_append]; exact hrest) hk
          exact ⟨g, List.mem_cons_of_mem _ hgmem, g1, g2, hgeq⟩
        · match c', hpost with
          | [], hpost =>
            obtain ⟨g, hgmem, g1, g2, hgeq⟩ := ih [s] [] post a b
              (List.cons_ne_nil s []) (keyConst_singleton s)
              (by rw [List.singleton_append, List.nil_append]
                  rw [List.nil_append] at hpost
                  exact hpost.symm) hk
            exact ⟨g, List.mem_cons_of_mem _ hgmem, g1, g2, hgeq⟩
          | [x], hpost =>
            exfalso
            have hax : a = x := by
              have := congrArg (fun l => l.head?) hpost
              simpa using this
            have hbs : b = s := by
              have := congrArg (fun l => l.tail.head?) hpost
              simpa using this
            have hamem : a ∈ first :: t := by
              rw [hcur, hax]
              exact List.mem_append_right pre (List.mem_singleton.mpr rfl)
            have hkeya : stepKey a = stepKey first := hkey a hamem
            have hkeys : stepKey s = stepKey first := by
              rw [← hbs, ← hk]
              exact hkeya
            exact hm ((canMerge_iff s first).mpr hkeys)
          | x :: y :: c'', hpost =>
            have hax : a = x := by
              have := congrArg (fun l => l.head?) hpost
              simpa using this
            have hby : b = y := by
              have := congrArg (fun l => l.tail.head?) hpost
              simpa using this
            refine ⟨first :: t, List.mem_cons_self _ _, pre, c'', ?_⟩
            rw [hcur, hax, hby]

/-- Adjacency at the `buildGroups` entry point. -/
theorem buildGroups_adjacent (pre post : List RecordingStep) (a b : RecordingStep)
    (hk : stepKey a = stepKey b) :
    ∃ g ∈ buildGroups (pre ++ a :: b :: post), ∃ g1 g2, g = g1 ++ a :: b :: g2 := by
  match hq : pre ++ a :: b :: post with
  | [] =>
    exfalso
    rcases List.append_eq_nil.mp hq with ⟨_, h2⟩
    cases h2
  | x :: xs =>
    have : buildGroups (x :: xs) = buildGroupsAux [x] xs := rfl
    rw [this]
    exact buildGroupsAux_adjacent xs [x] pre post a b (List.cons_ne_nil x [])
      (keyConst_singleton x) (by rw [List.singleton_append]; exact hq.symm) hk

/-- C10: a target text with none of the landmark anchors parses to the
generic defaults (region "页面区域", component "组件", purpose "业务交互")
rather than failing; consequently two consecutive steps with equal page
titles whose target texts both lack the anchors always fall into the same
business run of the build's grouping, wherever they occur. -/
theorem anchorless_defaults_and_merge (t action : String)
    (pre post : List RecordingStep) (a b : RecordingStep)
    (ht : noAnchors t) (htitle : a.pageTitle = b.pageTitle)
    (ha : noAnchors a.targetElement) (hb : noAnchors b.targetElement) :
    ((parseStep t action).location = "页面区域" ∧
     (parseStep t action).compName = "组件" ∧
     (parseStep t action).purpose = "业务交互") ∧
    ∃ g ∈ buildGroups (pre ++ a :: b :: post), ∃ g1 g2, g = g1 ++ a :: b :: g2 := by
  refine ⟨⟨parseStep_location_default t action ht.1,
    parseStep_compName_default t action ht.2.1,
    parseStep_purpose_default t action ht.2.2⟩, ?_⟩
  apply buildGroups_adjacent
  unfold stepKey
  rw [htitle, parseStep_location_default _ _ ha.1, parseStep_location_default _ _ hb.1]

def c10a : RecordingStep :=
  ⟨"ta", "sx", 1, "click", "", "", "登录按钮", "", "", "门户首页", "", "", false⟩

def c10b : RecordingStep :=
  ⟨"tb", "sx", 2, "input", "", "", "搜索输入框", "", "", "门户首页", "", "", false⟩

/-- C10 witness: two plain-text steps on the same page, placed after an
unrelated leading step. -/
theorem anchorless_defaults_and_merge_witness :
    noAnchors "普通按钮" ∧ c10a.pageTitle = c10b.pageTitle ∧
    noAnchors c10a.targetElement ∧ noAnchors c10b.targetElement ∧
    (((parseStep "普通按钮" "click").location = "页面区域" ∧
      (parseStep "普通按钮" "click").compName = "组件" ∧
      (parseStep "普通按钮" "click").purpose = "业务交互") ∧
     ∃ g ∈ buildGroups
        ([⟨"t0", "sx", 0, "click", "", "", "入口", "", "", "别的页面", "", "", false⟩] ++
          c10a :: c10b :: []),
       ∃ g1 g2, g = g1 ++ c10a :: c10b :: g2) :=
  ⟨by decide, by decide, by decide, by decide,
    anchorless_defaults_and_merge "普通按钮" "click"
      [⟨"t0", "sx", 0, "click", "", "", "入口", "", "", "别的页面", "", "", false⟩] []
      c10a c10b (by decide) (by decide) (by decide) (by decide)⟩

/-! ## C9: one step heading per business entry, in entry order

Every `WriteString` chunk of `GenerateMarkdown` other than a step heading
fails the "### 第 " prefix test by its leading characters, whatever the
interpolated data; the step-description chunk is the one chunk whose prefix
depends on stored text, so it enters as a hypothesis. -/

theorem ssw_heading (k : Int) : strStartsWith (headingChunk k) "### 第 " = true := rfl

theorem ssw_code (a b : String) : strStartsWith ("```\n" ++ a ++ b) "### 第 " = false := rfl

theorem ssw_img (a b c d : String) :
    strStartsWith ("![步骤" ++ a ++ b ++ c ++ d) "### 第 " = false := rfl

theorem ssw_dash : strStartsWith "---\n\n" "### 第 " = false := rfl

theorem ssw_sec (a b : String) : strStartsWith ("## " ++ a ++ b) "### 第 " = false := rfl

theorem ssw_title (a b : String) : strStartsWith ("# " ++ a ++ b) "### 第 " = false := rfl

theorem ssw_meta (a b c d : String) :
    strStartsWith ("> 项目：" ++ a ++ b ++ c ++ d) "### 第 " = false := rfl

theorem ssw_bizheader : strStartsWith "## 操作说明文档\n\n" "### 第 " = false := rfl

theorem filter_stepChunks (st : DocStep)
    (h : strStartsWith (st.description ++ "\n\n") "### 第 " = false) :
    (stepChunks st).filter (fun c => strStartsWith c "### 第 ") =
      [headingChunk st.stepIndex] := by
  unfold stepChunks
  by_cases h1 : st.techNote ≠ "" <;> by_cases h2 : st.screenshotURL ≠ "" <;>
    simp [h1, h2, List.filter_append, List.filter_cons, ssw_heading, h, ssw_code,
      ssw_img, ssw_dash]

theorem filter_steps_flatten (steps : List DocStep)
    (h : ∀ st ∈ steps, strStartsWith (st.description ++ "\n\n") "### 第 " = false) :
    ((steps.map stepChunks).flatten).filter (fun c => strStartsWith c "### 第 ") =
      steps.map (fun st => headingChunk st.stepIndex) := by
  induction steps with
  | nil => rfl
  | cons st rest ih =>
    simp only [List.map_cons, List.flatten_cons, List.filter_append]
    rw [filter_stepChunks st (h st (List.mem_cons_self st rest)),
      ih (fun s hs => h s (List.mem_cons_of_mem st hs))]
    rfl

/-- C9: for a built document, the business-view Markdown contains exactly one
"### 第 k 步" heading chunk per business entry, with `k` that entry's
representative step index, in entry order; and — the step query being sorted
by step index — those representative indices are strictly ascending. -/
theorem business_markdown_headings (db : DBState) (now sid : String) (session : Session)
    (hfind : db.sessions.find? (fun s => s.id == sid) = some session)
    (hsort : List.Chain' (· < ·) ((stepsQuery db sid).map RecordingStep.stepIndex))
    (hdesc : ∀ g ∈ buildGroups (stepsQuery db sid),
      strStartsWith (groupDesc g ++ "\n\n") "### 第 " = false) :
    ∃ content, buildDocument db now sid = .ok content ∧
      (mdChunks content "business").filter (fun c => strStartsWith c "### 第 ") =
        ((content.businessView.map DocSection.steps).flatten).map
          (fun st => headingChunk st.stepIndex) ∧
      List.Chain' (· < ·)
        (((content.businessView.map DocSection.steps).flatten).map DocStep.stepIndex) := by
  have hok : buildDocument db now sid = .ok
      { sessionTitle := session.title
        projectName :=
          ((db.projects.find? (fun p => p.id == session.projectId)).getD ⟨"", ""⟩).name
        generatedAt := now
        businessView := [⟨1, session.title ++ " - 操作说明",
          (buildGroups (stepsQuery db sid)).map (flushBiz (lookupShot
            (db.screenshots.filter (fun sc => sc.sessionId == sid))))⟩]
        technicalView := [⟨1, session.title ++ " - 技术参考",
          ((buildGroups (stepsQuery db sid)).map (fun g => g.map (techStepOf (lookupShot
            (db.screenshots.filter (fun sc => sc.sessionId == sid)))))).flatten⟩] } := by
    rw [buildDocument, hfind]
  have hbizdesc : ∀ st ∈ (buildGroups (stepsQuery db sid)).map (flushBiz (lookupShot
      (db.screenshots.filter (fun sc => sc.sessionId == sid)))),
      strStartsWith (st.description ++ "\n\n") "### 第 " = false := by
    intro st hst
    obtain ⟨g, hgmem, rfl⟩ := List.mem_map.mp hst
    exact hdesc g hgmem
  refine ⟨_, hok, ?_, ?_⟩
  · have hneq : (("business" : String) == "technical") = false := rfl
    simp only [mdChunks, hneq, Bool.false_eq_true, if_false, sectionChunks,
      List.map_cons, List.map_nil, List.flatten_cons, List.flatten_nil,
      List.append_nil, List.cons_append, List.nil_append, List.filter_cons,
      List.filter_append, ssw_title, ssw_meta, ssw_bizheader, ssw_sec,
      Bool.false_eq_true, if_false]
    rw [filter_steps_flatten _ hbizdesc]
  · simp only [List.map_cons, List.map_nil, List.flatten_cons, List.flatten_nil,
      List.append_nil, List.map_map]
    have hcomp : (DocStep.stepIndex ∘ flushBiz (lookupShot
        (db.screenshots.filter (fun sc => sc.sessionId == sid)))) =
        (RecordingStep.stepIndex ∘ List.headI) := rfl
    rw [hcomp, ← List.map_map]
    have hsub : List.Sublist ((buildGroups (stepsQuery db sid)).map List.headI)
        (stepsQuery db sid) := by
      have := headI_sublist (buildGroups (stepsQuery db sid)) (buildGroups_ne_nil _)
      rwa [buildGroups_flatten] at this
    have hpair : ((stepsQuery db sid).map RecordingStep.stepIndex).Pairwise (· < ·) :=
      List.chain'_iff_pairwise.mp hsort
    exact List.chain'_iff_pairwise.mpr
      (hpair.sublist (hsub.map RecordingStep.stepIndex))

/-! ## C8: the single error condition of `BuildDocument` -/

/-- C8: `BuildDocument` fails — with the session-not-found error — exactly
when the session id does not resolve; no other error propagates; and a
session with zero steps yields one empty-steps section per view. -/
theorem build_notfound_only_error (db : DBState) (now sid : String) :
    (buildDocument db now sid = .error "session not found" ↔
      db.sessions.find? (fun s => s.id == sid) = none) ∧
    (∀ e, buildDocument db now sid = .error e → e = "session not found") ∧
    (∀ session, db.sessions.find? (fun s => s.id == sid) = some session →
      stepsQuery db sid = [] →
      buildDocument db now sid = .ok
        ⟨session.title,
         ((db.projects.find? (fun p => p.id == session.projectId)).getD ⟨"", ""⟩).name,
         now,
         [⟨1, session.title ++ " - 操作说明", []⟩],
         [⟨1, session.title ++ " - 技术参考", []⟩]⟩) := by
  refine ⟨⟨?_, ?_⟩, ?_, ?_⟩
  · intro h
    rcases hf : db.sessions.find? (fun s => s.id == sid) with _ | session
    · exact hf
    · rw [buildDocument, hf] at h
      cases h
  · intro h
    rw [buildDocument, h]
  · intro e h
    rcases hf : db.sessions.find? (fun s => s.id == sid) with _ | session
    · rw [buildDocument, hf] at h
      cases h
      rfl
    · rw [buildDocument, hf] at h
      cases h
  · intro session hf hsteps
    rw [buildDocument, hf]
    rw [show (db.sessions.find? (fun s => s.id == sid)) = some session from hf] at *
    simp only [hsteps]
    rfl

def c8db : DBState :=
  ⟨[⟨"sess8", "proj8", "会话标题"⟩], [⟨"proj8", "项目名"⟩], [], []⟩

/-! ## C4: two views, exhaustive technical view, merged business view -/

/-- C4: for an existing session, the technical view holds exactly one entry
per queried step, unmerged and in the original (step-index-sorted) order,
while the business view holds at most one entry per step — exactly one per
group of the run decomposition, whose groups are non-empty, concatenate back
to the original step list in order, are constant in (page title, parsed
region) key, and are maximal (adjacent groups differ in key). -/
theorem build_two_views (db : DBState) (now sid : String) (session : Session)
    (hfind : db.sessions.find? (fun s => s.id == sid) = some session)
    (hsort : List.Chain' (· < ·) ((stepsQuery db sid).map RecordingStep.stepIndex)) :
    ∃ content, buildDocument db now sid = .ok content ∧
      (content.technicalView.map DocSection.steps).flatten =
        (stepsQuery db sid).map
          (techStepOf (lookupShot (db.screenshots.filter (fun sc => sc.sessionId == sid)))) ∧
      ((content.technicalView.map DocSection.steps).flatten).length =
        (stepsQuery db sid).length ∧
      List.Chain' (· < ·)
        (((content.technicalView.map DocSection.steps).flatten).map DocStep.stepIndex) ∧
      (content.businessView.map DocSection.steps).flatten =
        (buildGroups (stepsQuery db sid)).map
          (flushBiz (lookupShot (db.screenshots.filter (fun sc => sc.sessionId == sid)))) ∧
      (buildGroups (stepsQuery db sid)).flatten = stepsQuery db sid ∧
      (∀ g ∈ buildGroups (stepsQuery db sid), g ≠ []) ∧
      (∀ g ∈ buildGroups (stepsQuery db sid), ∀ s ∈ g, stepKey s = stepKey g.headI) ∧
      List.Chain' (fun g1 g2 => stepKey g1.headI ≠ stepKey g2.headI)
        (buildGroups (stepsQuery db sid)) ∧
      ((content.businessView.map DocSection.steps).flatten).length ≤
        (stepsQuery db sid).length := by
  have hmapmap : (fun g : List RecordingStep => g.map
      (techStepOf (lookupShot (db.screenshots.filter (fun sc => sc.sessionId == sid))))) =
      List.map (techStepOf (lookupShot
        (db.screenshots.filter (fun sc => sc.sessionId == sid)))) := rfl
  have hok : buildDocument db now sid = .ok
      { sessionTitle := session.title
        projectName :=
          ((db.projects.find? (fun p => p.id == session.projectId)).getD ⟨"", ""⟩).name
        generatedAt := now
        businessView := [⟨1, session.title ++ " - 操作说明",
          (buildGroups (stepsQuery db sid)).map (flushBiz (lookupShot
            (db.screenshots.filter (fun sc => sc.sessionId == sid))))⟩]
        technicalView := [⟨1, session.title ++ " - 技术参考",
          ((buildGroups (stepsQuery db sid)).map (fun g => g.map (techStepOf (lookupShot
            (db.screenshots.filter (fun sc => sc.sessionId == sid)))))).flatten⟩] } := by
    rw [buildDocument, hfind]
  have htech : ((buildGroups (stepsQuery db sid)).map (fun g => g.map (techStepOf
      (lookupShot (db.screenshots.filter (fun sc => sc.sessionId == sid)))))).flatten =
      (stepsQuery db sid).map (techStepOf (lookupShot
        (db.screenshots.filter (fun sc => sc.sessionId == sid)))) := by
    rw [hmapmap, ← List.map_flatten, buildGroups_flatten]
  refine ⟨_, hok, ?_, ?_, ?_, ?_, buildGroups_flatten _, buildGroups_ne_nil _,
    buildGroups_keyConst _, buildGroups_chain _, ?_⟩
  · simpa using htech
  · simp [htech]
  · simp only [List.map_cons, List.map_nil, List.flatten_cons, List.flatten_nil,
      List.append_nil, htech, List.map_map]
    have hcomp : (DocStep.stepIndex ∘ techStepOf (lookupShot
        (db.screenshots.filter (fun sc => sc.sessionId == sid)))) =
        RecordingStep.stepIndex := rfl
    rw [hcomp]
    exact hsort
  · simp
  · simp only [List.map_cons, List.map_nil, List.flatten_cons, List.flatten_nil,
      List.append_nil, List.length_map]
    calc (buildGroups (stepsQuery db sid)).length
        ≤ (buildGroups (stepsQuery db sid)).flatten.length :=
          length_le_flatten_length _ (buildGroups_ne_nil _)
      _ = (stepsQuery db sid).length := by rw [buildGroups_flatten]

def c4db : DBState :=
  ⟨[⟨"sw", "pw", "标题W"⟩], [⟨"pw", "项目W"⟩],
   [⟨"w1", "sw", 1, "click", "cs1", "xp1", "元素甲", "", "http://w/1", "页一", "", "d1", false⟩,
    ⟨"w2", "sw", 2, "click", "cs2", "xp2", "元素乙", "", "http://w/2", "页二", "", "d2", false⟩],
   []⟩

/-- C4 witness: a two-step session whose steps live on different pages. -/
theorem build_two_views_witness :
    c4db.sessions.find? (fun s => s.id == "sw") = some ⟨"sw", "pw", "标题W"⟩ ∧
    ((stepsQuery c4db "sw").map RecordingStep.stepIndex = [1, 2] ∧
      List.Chain' (· < ·) ([1, 2] : List Int)) ∧
    (∃ content, buildDocument c4db "T" "sw" = .ok content ∧
      (content.technicalView.map DocSection.steps).flatten =
        (stepsQuery c4db "sw").map
          (techStepOf (lookupShot (c4db.screenshots.filter
            (fun sc => sc.sessionId == "sw")))) ∧
      ((content.technicalView.map DocSection.steps).flatten).length =
        (stepsQuery c4db "sw").length ∧
      List.Chain' (· < ·)
        (((content.technicalView.map DocSection.steps).flatten).map DocStep.stepIndex) ∧
      (content.businessView.map DocSection.steps).flatten =
        (buildGroups (stepsQuery c4db "sw")).map
          (flushBiz (lookupShot (c4db.screenshots.filter
            (fun sc => sc.sessionId == "sw")))) ∧
      (buildGroups (stepsQuery c4db "sw")).flatten = stepsQuery c4db "sw" ∧
      (∀ g ∈ buildGroups (stepsQuery c4db "sw"), g ≠ []) ∧
      (∀ g ∈ buildGroups (stepsQuery c4db "sw"), ∀ s ∈ g, stepKey s = stepKey g.headI) ∧
      List.Chain' (fun g1 g2 => stepKey g1.headI ≠ stepKey g2.headI)
        (buildGroups (stepsQuery c4db "sw")) ∧
      ((content.businessView.map DocSection.steps).flatten).length ≤
        (stepsQuery c4db "sw").length) :=
  ⟨by decide, ⟨by decide, by norm_num [List.chain'_cons]⟩,
    build_two_views c4db "T" "sw" ⟨"sw", "pw", "标题W"⟩ (by decide)
      (by rw [show (stepsQuery c4db "sw").map RecordingStep.stepIndex = [1, 2] by decide]
          norm_num [List.chain'_cons])⟩

/-- C9 witness: the two-page session of the C4 witness rendered to business
Markdown. -/
theorem business_markdown_headings_witness :
    c4db.sessions.find? (fun s => s.id == "sw") = some ⟨"sw", "pw", "标题W"⟩ ∧
    ((stepsQuery c4db "sw").map RecordingStep.stepIndex = [1, 2] ∧
      List.Chain' (· < ·) ([1, 2] : List Int)) ∧
    (∀ g ∈ buildGroups (stepsQuery c4db "sw"),
      strStartsWith (groupDesc g ++ "\n\n") "### 第 " = false) ∧
    (∃ content, buildDocument c4db "T" "sw" = .ok content ∧
      (mdChunks content "business").filter (fun c => strStartsWith c "### 第 ") =
        ((content.businessView.map DocSection.steps).flatten).map
          (fun st => headingChunk st.stepIndex) ∧
      List.Chain' (· < ·)
        (((content.businessView.map DocSection.steps).flatten).map DocStep.stepIndex)) :=
  by
  refine ⟨by decide, ⟨by decide, by norm_num [List.chain'_cons]⟩, by decide, ?_⟩
  exact business_markdown_headings c4db "T" "sw" ⟨"sw", "pw", "标题W"⟩ (by decide)
    (by rw [show (stepsQuery c4db "sw").map RecordingStep.stepIndex = [1, 2] by decide]
        norm_num [List.chain'_cons])
    (by decide)

/-- C8 witness: scenario C/D data — an existing session with zero steps. -/
theorem build_notfound_only_error_witness :
    c8db.sessions.find? (fun s => s.id == "sess8") = some ⟨"sess8", "proj8", "会话标题"⟩ ∧
    stepsQuery c8db "sess8" = [] ∧
    buildDocument c8db "2026-01-01" "sess8" = .ok
      ⟨"会话标题",
       ((c8db.projects.find?
          (fun p => p.id == (⟨"sess8", "proj8", "会话标题"⟩ : Session).projectId)).getD
         ⟨"", ""⟩).name,
       "2026-01-01",
       [⟨1, "会话标题" ++ " - 操作说明", []⟩],
       [⟨1, "会话标题" ++ " - 技术参考", []⟩]⟩ :=
  ⟨by decide, rfl,
    (build_notfound_only_error c8db "2026-01-01" "sess8").2.2
      ⟨"sess8", "proj8", "会话标题"⟩ (by decide) rfl⟩

end GPilot
